import Mathlib

/-!
Verification development for the polyphase filterbank channelizer
(`src/multicarrier/src/firpfbch.c` of liquid-dsp).

The channelizer orchestration (`firpfbch_create`,
`firpfbch_synthesizer_execute`, `firpfbch_analyzer_execute`,
`firpfbch_execute`) is embedded directly from the C source.  External
collaborators that the source consumes but whose code is not part of the
material (the generic FIR filter primitive `fir_filter_crcf`, the
spectral-transform backend, the filter design routines
`fir_kaiser_window` / `design_rrc_filter`, the header constants, and the
reset operation) are modelled from the specification's collaborator
contracts; their numeric content is kept abstract where the behaviour in
question does not depend on it.

Real samples are modelled as rationals and complex samples as pairs of
rationals, so that every definition is executable and concrete instances
can be evaluated by `decide`/`rfl`.
-/

set_option maxHeartbeats 1000000

/-- Complex sample: a pair (real part, imaginary part) of rationals,
modelling the C `float complex`. -/
abbrev Cplx : Type := ℚ × ℚ

/-- Scaling of a complex sample by a real coefficient (used by the FIR
dot product, whose taps are real). -/
def rsmul (a : ℚ) (z : Cplx) : Cplx := (a * z.1, a * z.2)

/-- Division of a complex sample by a natural number, modelling the C
statement `_y[i] /= (float)(_c->num_channels)`. -/
def cdivN (z : Cplx) (n : ℕ) : Cplx := (z.1 / (n : ℚ), z.2 / (n : ℚ))

/-- Modelled from the spec: the generic FIR filter primitive
`fir_filter_crcf` (its source is not part of the material).  Per the
spec's collaborator contract (§4.3) it owns a list of real taps `h` and a
delay line `w` of the same length holding the most recent input samples,
newest first. -/
structure FirFilter : Type where
  h : List ℚ
  w : List Cplx
deriving DecidableEq, Repr

/-- Placeholder filter used as the default value of out-of-range list
accesses; it has no taps and no delay line. -/
def fir0 : FirFilter := { h := [], w := [] }

/-- Modelled from the spec: `fir_filter_crcf_create(h, n)` builds a filter
with taps `h` and a cleared (all-zero) delay line of the same length. -/
def fir_filter_crcf_create (h : List ℚ) : FirFilter :=
  { h := h, w := List.replicate h.length ((0 : ℚ), (0 : ℚ)) }

/-- Modelled from the spec: pushing a sample advances the delay line by
one sample, discarding the oldest (§4.3). -/
def fir_filter_crcf_push (f : FirFilter) (s : Cplx) : FirFilter :=
  { f with w := (s :: f.w).take f.h.length }

/-- Modelled from the spec: executing the filter computes the dot product
of the current delay-line contents with the taps (§4.3). -/
def fir_filter_crcf_execute (f : FirFilter) : Cplx :=
  (List.zipWith rsmul f.h f.w).sum

/-- Modelled from the spec: `clear()` zeroes the delay line, leaving the
taps unchanged (§4.3, §4.7). -/
def fir_filter_crcf_clear (f : FirFilter) : FirFilter :=
  { f with w := List.replicate f.w.length ((0 : ℚ), (0 : ℚ)) }

/-- Modelled from the spec: header constant selecting the Nyquist
(kaiser-windowed-sinc) prototype design. -/
def FIRPFBCH_NYQUIST : ℤ := 0

/-- Modelled from the spec: header constant selecting the root-Nyquist
(root-raised-cosine) prototype design. -/
def FIRPFBCH_ROOTNYQUIST : ℤ := 1

/-- Modelled from the spec: header constant selecting Analyzer mode. -/
def FIRPFBCH_ANALYZER : ℤ := 0

/-- Modelled from the spec: header constant selecting Synthesizer mode. -/
def FIRPFBCH_SYNTHESIZER : ℤ := 1

/-- The channelizer state `struct firpfbch_s`: channel count, filter
delay, excess bandwidth, the time-domain buffer `x`, the freq-domain
buffer `X`, the bank of per-branch FIR filters, and the stored
nyquist/type flags.  The FFT plan is not state (it only binds `X` to `x`);
the transform itself is passed to the execute functions as a function
argument, mirroring its use as an external service. -/
structure Firpfbch : Type where
  num_channels : ℕ
  m : ℕ
  beta : ℚ
  x : List Cplx
  X : List Cplx
  bank : List FirFilter
  nyquist : ℤ
  type : ℤ
deriving DecidableEq, Repr

/-- The prototype-design step of `firpfbch_create` (lines 57-71 of the
source): reject `m < 1`; otherwise fill an array of `h_len + 1` taps,
where `h_len = 2*m*num_channels`, using the kaiser design with cutoff
`1/num_channels` for the Nyquist flag or the RRC design for the
root-Nyquist flag; any other flag is an error.  The external design
routines are taken as function arguments (`kaiser len fc beta k` and
`rrc M m beta dt k` give tap `k` of the respective design). -/
def firpfbch_design_prototype (kaiser : ℕ → ℚ → ℚ → ℕ → ℚ)
    (rrc : ℕ → ℕ → ℚ → ℚ → ℕ → ℚ)
    (num_channels m : ℕ) (beta : ℚ) (nyquist : ℤ) : Except String (List ℚ) :=
  if m < 1 then
    Except.error "firpfbch_create(), invalid filter delay"
  else
    let h_len : ℕ := 2 * m * num_channels
    if nyquist = FIRPFBCH_NYQUIST then
      let fc : ℚ := 1 / (num_channels : ℚ)
      Except.ok ((List.range (h_len + 1)).map (kaiser (h_len + 1) fc beta))
    else if nyquist = FIRPFBCH_ROOTNYQUIST then
      Except.ok ((List.range (h_len + 1)).map (rrc num_channels m beta 0))
    else
      Except.error "firpfbch_create(), unsupported nyquist flag"

/-- The polyphase-decomposition step of `firpfbch_create` (lines 74-98 of
the source): split the prototype `h` into `num_channels` sub-sampled
branches.  Synthesizer type: branch `i` has `h_len/num_channels` taps,
tap `n` being prototype tap `i + n*num_channels`.  Any other type: branch
`i` has `h_len/num_channels + 1` taps, tap `0` being an inserted zero and
tap `n+1` being prototype tap `i + 1 + n*num_channels`. -/
def firpfbch_bank (h : List ℚ) (num_channels m : ℕ) (type : ℤ) :
    List FirFilter :=
  let h_len : ℕ := 2 * m * num_channels
  let h_sub_len : ℕ := h_len / num_channels
  if type = FIRPFBCH_SYNTHESIZER then
    (List.range num_channels).map (fun i =>
      fir_filter_crcf_create
        ((List.range h_sub_len).map (fun n =>
          h.getD (i + n * num_channels) 0)))
  else
    (List.range num_channels).map (fun i =>
      fir_filter_crcf_create
        (0 :: (List.range h_sub_len).map (fun n =>
          h.getD (i + 1 + n * num_channels) 0)))

/-- `firpfbch_create` (lines 36-117): store the configuration, design the
prototype, and decompose it into `num_channels` sub-sampled branches.
The process exit on invalid configuration is modelled as `Except.error`. -/
def firpfbch_create (kaiser : ℕ → ℚ → ℚ → ℕ → ℚ)
    (rrc : ℕ → ℕ → ℚ → ℚ → ℕ → ℚ)
    (num_channels m : ℕ) (beta : ℚ) (nyquist type : ℤ) :
    Except String Firpfbch :=
  match firpfbch_design_prototype kaiser rrc num_channels m beta nyquist with
  | Except.error e => Except.error e
  | Except.ok h =>
    Except.ok
      { num_channels := num_channels
        m := m
        beta := beta
        x := List.replicate num_channels ((0 : ℚ), (0 : ℚ))
        X := List.replicate num_channels ((0 : ℚ), (0 : ℚ))
        bank := firpfbch_bank h num_channels m type
        nyquist := nyquist
        type := type }

/-- Read `n` samples out of a buffer, padding with zero: models a C
buffer of `n` complex samples whose contents come from `l`. -/
def buf (n : ℕ) (l : List Cplx) : List Cplx :=
  (List.range n).map (fun i => l.getD i ((0 : ℚ), (0 : ℚ)))

/-- `firpfbch_synthesizer_execute` (lines 142-165): copy the `M` input
samples into the freq-domain buffer `X`, run the inverse transform into
the time-domain buffer `x`, then for each branch `i` push `x[i]` into
filter `i`, execute it into `y[i]`, and divide `y[i]` by `num_channels`.
The inverse transform is passed as the function `ifft`.  Returns the
updated state together with the output block. -/
def firpfbch_synthesizer_execute (ifft : List Cplx → List Cplx)
    (c : Firpfbch) (xin : List Cplx) : Firpfbch × List Cplx :=
  let M := c.num_channels
  let Xb : List Cplx := xin.take M
  let xb : List Cplx := buf M (ifft Xb)
  let bank' : List FirFilter :=
    (List.range M).map (fun i =>
      fir_filter_crcf_push (c.bank.getD i fir0) (xb.getD i ((0 : ℚ), (0 : ℚ))))
  let y : List Cplx :=
    (List.range M).map (fun i =>
      cdivN
        (fir_filter_crcf_execute
          (fir_filter_crcf_push (c.bank.getD i fir0)
            (xb.getD i ((0 : ℚ), (0 : ℚ)))))
        M)
  ({ c with X := Xb, x := xb, bank := bank' }, y)

/-- `firpfbch_analyzer_execute` (lines 167-189): for each `i` push input
sample `i` into filter `b = num_channels - i - 1` (reverse branch order)
and store that filter's output at `X[i]`; run the inverse transform into
`x`; copy `x` to the output.  No scaling is applied. -/
def firpfbch_analyzer_execute (ifft : List Cplx → List Cplx)
    (c : Firpfbch) (xin : List Cplx) : Firpfbch × List Cplx :=
  let M := c.num_channels
  let bank' : List FirFilter :=
    (List.range M).map (fun j =>
      fir_filter_crcf_push (c.bank.getD j fir0)
        (xin.getD (M - 1 - j) ((0 : ℚ), (0 : ℚ))))
  let Xb : List Cplx :=
    (List.range M).map (fun i =>
      fir_filter_crcf_execute
        (fir_filter_crcf_push (c.bank.getD (M - 1 - i) fir0)
          (xin.getD i ((0 : ℚ), (0 : ℚ)))))
  let xb : List Cplx := buf M (ifft Xb)
  ({ c with X := Xb, x := xb, bank := bank' }, xb)

/-- `firpfbch_execute` (lines 191-197): dispatch on the stored type flag;
the Analyzer path runs exactly when `type = FIRPFBCH_ANALYZER`, everything
else runs the Synthesizer path. -/
def firpfbch_execute (ifft : List Cplx → List Cplx)
    (c : Firpfbch) (xin : List Cplx) : Firpfbch × List Cplx :=
  if c.type = FIRPFBCH_ANALYZER then
    firpfbch_analyzer_execute ifft c xin
  else
    firpfbch_synthesizer_execute ifft c xin

/-- Modelled from the spec: the Reset operation (§4.7, not present in the
source material), which clears every subchannel filter's delay line to
zero and has no effect on the configuration or the derived taps; the two
scratch buffers are left as they are (their contents are overwritten
before being read by the next execute). -/
def firpfbch_clear (c : Firpfbch) : Firpfbch :=
  { c with bank := c.bank.map fir_filter_crcf_clear }

/-- Run a sequence of input blocks through `firpfbch_execute`, threading
the state and collecting the output blocks. -/
def firpfbch_run (ifft : List Cplx → List Cplx)
    (c : Firpfbch) : List (List Cplx) → Firpfbch × List (List Cplx)
  | [] => (c, [])
  | xin :: rest =>
    let r := firpfbch_execute ifft c xin
    let r' := firpfbch_run ifft r.1 rest
    (r'.1, r.2 :: r'.2)

/-- Identity transform, used as a concrete length-preserving instance of
the external spectral transform when evaluating the development on
concrete inputs. -/
def ifftId : List Cplx → List Cplx := fun l => l

/-- Concrete stand-in for the external kaiser design routine: tap `k` of
the design is the rational `k`. -/
def kaiserW : ℕ → ℚ → ℚ → ℕ → ℚ := fun _ _ _ k => (k : ℚ)

/-- Concrete stand-in for the external root-raised-cosine design routine:
tap `k` of the design is the rational `k + 1`. -/
def rrcW : ℕ → ℕ → ℚ → ℚ → ℕ → ℚ := fun _ _ _ _ k => (k : ℚ) + 1

/-- Concrete two-channel synthesizer-type state used to evaluate the
theorems on explicit inputs. -/
def firpfbchW : Firpfbch :=
  { num_channels := 2
    m := 1
    beta := 0
    x := [((5 : ℚ), (5 : ℚ)), ((6 : ℚ), (6 : ℚ))]
    X := [((7 : ℚ), (0 : ℚ)), ((8 : ℚ), (0 : ℚ))]
    bank := [fir_filter_crcf_create [1, 2], fir_filter_crcf_create [3, 4]]
    nyquist := 0
    type := 1 }

/-- Concrete two-channel analyzer-type state used to evaluate the
theorems on explicit inputs. -/
def firpfbchWA : Firpfbch :=
  { firpfbchW with
    bank := [fir_filter_crcf_create [0, 1, 3], fir_filter_crcf_create [0, 2, 4]]
    type := 0 }

/-- Concrete state whose stored type flag is neither the Analyzer nor the
Synthesizer constant. -/
def firpfbchW7 : Firpfbch := { firpfbchW with type := 7 }

/-- Concrete input block of two complex samples. -/
def xinW : List Cplx := [((1 : ℚ), (0 : ℚ)), ((2 : ℚ), (3 : ℚ))]

/-- The concrete channelizer built by `firpfbch_create` for a stored type
flag of `7` (neither the Analyzer nor the Synthesizer constant). -/
def firpfbchC7 : Firpfbch :=
  match firpfbch_create kaiserW rrcW 2 1 0 FIRPFBCH_NYQUIST 7 with
  | Except.ok c => c
  | Except.error _ => firpfbchW

/-- The concrete prototype designed for `M = 2`, `m = 1` with the
stand-in kaiser routine. -/
def protoW : List ℚ :=
  match firpfbch_design_prototype kaiserW rrcW 2 1 0 FIRPFBCH_NYQUIST with
  | Except.ok h => h
  | Except.error _ => []

/-- The concrete analyzer-mode channelizer built by `firpfbch_create`
for `M = 2`, `m = 1` with the stand-in design routines. -/
def firpfbchCA : Firpfbch :=
  match firpfbch_create kaiserW rrcW 2 1 0 FIRPFBCH_NYQUIST FIRPFBCH_ANALYZER with
  | Except.ok c => c
  | Except.error _ => firpfbchW

lemma getD_range_map {α : Type} (f : ℕ → α) (d : α) {M i : ℕ} (hi : i < M) :
    ((List.range M).map f).getD i d = f i := by
  have h : i < ((List.range M).map f).length := by simpa using hi
  rw [List.getD_eq_getElem _ _ h]
  simp

lemma buf_eq_self (l : List Cplx) : buf l.length l = l := by
  apply List.ext_getElem
  · simp [buf]
  · intro i h1 h2
    simp only [buf, List.getElem_map, List.getElem_range]
    exact List.getD_eq_getElem l _ h2

/-- C1: with the input block holding exactly `num_channels` symbols, one
synthesizer execute copies the input into the frequency buffer, runs the
inverse transform into the time buffer, and for each branch `i` pushes
time sample `i` into filter `i`, executes it and divides the result by
`num_channels`; it produces exactly `num_channels` output samples, leaves
the configuration and the branch taps unchanged, and carries no state
across calls other than the filter delay lines (the scratch buffers are
overwritten before being read). -/
theorem firpfbch_synthesizer_execute_spec
    (ifft : List Cplx → List Cplx) (c : Firpfbch) (xin : List Cplx)
    (hx : xin.length = c.num_channels)
    (hf : (ifft xin).length = c.num_channels) :
    (firpfbch_synthesizer_execute ifft c xin).2.length = c.num_channels ∧
    (firpfbch_synthesizer_execute ifft c xin).1.X = xin ∧
    (firpfbch_synthesizer_execute ifft c xin).1.x = ifft xin ∧
    (∀ i, i < c.num_channels →
      (firpfbch_synthesizer_execute ifft c xin).2.getD i ((0:ℚ),(0:ℚ)) =
        cdivN
          (fir_filter_crcf_execute
            (fir_filter_crcf_push (c.bank.getD i fir0)
              ((ifft xin).getD i ((0:ℚ),(0:ℚ)))))
          c.num_channels) ∧
    (firpfbch_synthesizer_execute ifft c xin).1.bank =
      (List.range c.num_channels).map (fun i =>
        fir_filter_crcf_push (c.bank.getD i fir0)
          ((ifft xin).getD i ((0:ℚ),(0:ℚ)))) ∧
    (firpfbch_synthesizer_execute ifft c xin).1.num_channels = c.num_channels ∧
    (firpfbch_synthesizer_execute ifft c xin).1.m = c.m ∧
    (firpfbch_synthesizer_execute ifft c xin).1.beta = c.beta ∧
    (firpfbch_synthesizer_execute ifft c xin).1.nyquist = c.nyquist ∧
    (firpfbch_synthesizer_execute ifft c xin).1.type = c.type ∧
    (∀ i, i < c.num_channels →
      ((firpfbch_synthesizer_execute ifft c xin).1.bank.getD i fir0).h =
        (c.bank.getD i fir0).h) ∧
    (∀ X0 x0, firpfbch_synthesizer_execute ifft { c with X := X0, x := x0 } xin =
        firpfbch_synthesizer_execute ifft c xin) := by
  have htake : xin.take c.num_channels = xin := by
    rw [← hx]; exact List.take_length xin
  have hbuf : buf c.num_channels (ifft (xin.take c.num_channels)) = ifft xin := by
    rw [htake, ← hf]; exact buf_eq_self (ifft xin)
  refine ⟨?_, ?_, ?_, ?_, ?_, ?_, ?_, ?_, ?_, ?_, ?_, ?_⟩
  · simp [firpfbch_synthesizer_execute]
  · simp [firpfbch_synthesizer_execute, htake]
  · simp [firpfbch_synthesizer_execute, hbuf]
  · intro i hi
    simp only [firpfbch_synthesizer_execute, hbuf]
    rw [getD_range_map _ _ hi]
  · simp [firpfbch_synthesizer_execute, hbuf]
  · rfl
  · rfl
  · rfl
  · rfl
  · rfl
  · intro i hi
    simp only [firpfbch_synthesizer_execute, hbuf]
    rw [getD_range_map _ _ hi]
    rfl
  · intro X0 x0
    rfl

/-- Witness for C1 at a concrete two-channel state and input block. -/
theorem firpfbch_synthesizer_execute_spec_witness :
    xinW.length = firpfbchW.num_channels ∧
    (ifftId xinW).length = firpfbchW.num_channels ∧
    ((firpfbch_synthesizer_execute ifftId firpfbchW xinW).1.X = xinW ∧
     (firpfbch_synthesizer_execute ifftId firpfbchW xinW).2.length =
       firpfbchW.num_channels) :=
  ⟨by decide, by decide,
    (firpfbch_synthesizer_execute_spec ifftId firpfbchW xinW
        (by decide) (by decide)).2.1,
    (firpfbch_synthesizer_execute_spec ifftId firpfbchW xinW
        (by decide) (by decide)).1⟩

/-- C2: with a length-preserving transform, one analyzer execute pushes
input sample `i` into filter `num_channels - 1 - i` (branch order
reversed relative to synthesis) and stores that filter's output at
frequency-buffer slot `i`, then runs the inverse transform into the time
buffer and emits the time buffer as the output block, with no scaling
anywhere on the path; configuration and branch taps are unchanged and no
state other than the filter delay lines survives the call. -/
theorem firpfbch_analyzer_execute_spec
    (ifft : List Cplx → List Cplx) (c : Firpfbch) (xin : List Cplx)
    (hf : ∀ l : List Cplx, (ifft l).length = l.length) :
    (firpfbch_analyzer_execute ifft c xin).2.length = c.num_channels ∧
    (firpfbch_analyzer_execute ifft c xin).1.X =
      (List.range c.num_channels).map (fun i =>
        fir_filter_crcf_execute
          (fir_filter_crcf_push (c.bank.getD (c.num_channels - 1 - i) fir0)
            (xin.getD i ((0:ℚ),(0:ℚ))))) ∧
    (firpfbch_analyzer_execute ifft c xin).1.bank =
      (List.range c.num_channels).map (fun j =>
        fir_filter_crcf_push (c.bank.getD j fir0)
          (xin.getD (c.num_channels - 1 - j) ((0:ℚ),(0:ℚ)))) ∧
    (firpfbch_analyzer_execute ifft c xin).1.x =
      ifft ((firpfbch_analyzer_execute ifft c xin).1.X) ∧
    (firpfbch_analyzer_execute ifft c xin).2 =
      (firpfbch_analyzer_execute ifft c xin).1.x ∧
    (firpfbch_analyzer_execute ifft c xin).1.num_channels = c.num_channels ∧
    (firpfbch_analyzer_execute ifft c xin).1.m = c.m ∧
    (firpfbch_analyzer_execute ifft c xin).1.beta = c.beta ∧
    (firpfbch_analyzer_execute ifft c xin).1.nyquist = c.nyquist ∧
    (firpfbch_analyzer_execute ifft c xin).1.type = c.type ∧
    (∀ i, i < c.num_channels →
      ((firpfbch_analyzer_execute ifft c xin).1.bank.getD i fir0).h =
        (c.bank.getD i fir0).h) ∧
    (∀ X0 x0, firpfbch_analyzer_execute ifft { c with X := X0, x := x0 } xin =
        firpfbch_analyzer_execute ifft c xin) := by
  have hlen : ∀ l : List Cplx, l.length = c.num_channels →
      buf c.num_channels (ifft l) = ifft l := by
    intro l hl
    rw [← show (ifft l).length = c.num_channels from (hf l).trans hl]
    exact buf_eq_self (ifft l)
  have hbuf := hlen
    ((List.range c.num_channels).map (fun i =>
      fir_filter_crcf_execute
        (fir_filter_crcf_push (c.bank.getD (c.num_channels - 1 - i) fir0)
          (xin.getD i ((0:ℚ),(0:ℚ)))))) (by simp)
  refine ⟨?_, ?_, ?_, ?_, ?_, ?_, ?_, ?_, ?_, ?_, ?_, ?_⟩
  · simp only [firpfbch_analyzer_execute, hbuf]
    rw [hf]
    simp
  · rfl
  · rfl
  · simp only [firpfbch_analyzer_execute, hbuf]
  · simp only [firpfbch_analyzer_execute]
  · rfl
  · rfl
  · rfl
  · rfl
  · rfl
  · intro i hi
    simp only [firpfbch_analyzer_execute]
    rw [getD_range_map _ _ hi]
    rfl
  · intro X0 x0
    rfl

/-- Witness for C2 at a concrete two-channel analyzer state and input. -/
theorem firpfbch_analyzer_execute_spec_witness :
    (∀ l : List Cplx, (ifftId l).length = l.length) ∧
    ((firpfbch_analyzer_execute ifftId firpfbchWA xinW).2 =
       (firpfbch_analyzer_execute ifftId firpfbchWA xinW).1.x ∧
     (firpfbch_analyzer_execute ifftId firpfbchWA xinW).2.length =
       firpfbchWA.num_channels) :=
  ⟨fun _ => rfl,
    (firpfbch_analyzer_execute_spec ifftId firpfbchWA xinW
        (fun _ => rfl)).2.2.2.2.1,
    (firpfbch_analyzer_execute_spec ifftId firpfbchWA xinW
        (fun _ => rfl)).1⟩

/-- C6: `firpfbch_create` rejects `m = 0` (i.e. `m < 1`) with the
invalid-filter-delay diagnostic, rejects an unrecognized nyquist flag
with the unsupported-flag diagnostic, and succeeds for every
configuration with `m ≥ 1` and a recognized flag. -/
theorem firpfbch_create_validation
    (kaiser : ℕ → ℚ → ℚ → ℕ → ℚ) (rrc : ℕ → ℕ → ℚ → ℚ → ℕ → ℚ)
    (M m : ℕ) (beta : ℚ) (nyquist ty : ℤ) :
    (m = 0 →
      firpfbch_create kaiser rrc M m beta nyquist ty =
        Except.error "firpfbch_create(), invalid filter delay") ∧
    (1 ≤ m → nyquist ≠ FIRPFBCH_NYQUIST → nyquist ≠ FIRPFBCH_ROOTNYQUIST →
      firpfbch_create kaiser rrc M m beta nyquist ty =
        Except.error "firpfbch_create(), unsupported nyquist flag") ∧
    (1 ≤ m → (nyquist = FIRPFBCH_NYQUIST ∨ nyquist = FIRPFBCH_ROOTNYQUIST) →
      ∃ c : Firpfbch,
        firpfbch_create kaiser rrc M m beta nyquist ty = Except.ok c) := by
  refine ⟨?_, ?_, ?_⟩
  · intro hm
    subst hm
    simp [firpfbch_create, firpfbch_design_prototype]
  · intro hm hn1 hn2
    have hm' : ¬ m < 1 := by omega
    simp [firpfbch_create, firpfbch_design_prototype, hm', hn1, hn2]
  · intro hm hk
    have hm' : ¬ m < 1 := by omega
    rcases hk with hk | hk
    · subst hk
      simp [firpfbch_create, firpfbch_design_prototype, hm']
    · subst hk
      simp [firpfbch_create, firpfbch_design_prototype, hm',
        FIRPFBCH_NYQUIST, FIRPFBCH_ROOTNYQUIST]

/-- Witness for C6: both rejections and one success at concrete
configurations. -/
theorem firpfbch_create_validation_witness :
    firpfbch_create kaiserW rrcW 2 0 0 FIRPFBCH_NYQUIST FIRPFBCH_SYNTHESIZER =
      Except.error "firpfbch_create(), invalid filter delay" ∧
    firpfbch_create kaiserW rrcW 2 1 0 7 FIRPFBCH_SYNTHESIZER =
      Except.error "firpfbch_create(), unsupported nyquist flag" ∧
    (∃ c : Firpfbch,
      firpfbch_create kaiserW rrcW 2 1 0 FIRPFBCH_NYQUIST FIRPFBCH_SYNTHESIZER =
        Except.ok c) :=
  ⟨(firpfbch_create_validation kaiserW rrcW 2 0 0 FIRPFBCH_NYQUIST
      FIRPFBCH_SYNTHESIZER).1 rfl,
   (firpfbch_create_validation kaiserW rrcW 2 1 0 7
      FIRPFBCH_SYNTHESIZER).2.1 (by decide) (by decide) (by decide),
   (firpfbch_create_validation kaiserW rrcW 2 1 0 FIRPFBCH_NYQUIST
      FIRPFBCH_SYNTHESIZER).2.2 (by decide) (Or.inl rfl)⟩

/-- C7: the Reset operation clears every subchannel filter's delay line
to zero and leaves the configuration, the branch count and the branch
taps unchanged. -/
theorem firpfbch_clear_spec (c : Firpfbch) :
    (firpfbch_clear c).num_channels = c.num_channels ∧
    (firpfbch_clear c).m = c.m ∧
    (firpfbch_clear c).beta = c.beta ∧
    (firpfbch_clear c).nyquist = c.nyquist ∧
    (firpfbch_clear c).type = c.type ∧
    (firpfbch_clear c).bank.length = c.bank.length ∧
    (∀ i, i < c.bank.length →
      ((firpfbch_clear c).bank.getD i fir0).h = (c.bank.getD i fir0).h ∧
      ((firpfbch_clear c).bank.getD i fir0).w =
        List.replicate (c.bank.getD i fir0).w.length ((0:ℚ),(0:ℚ))) := by
  refine ⟨rfl, rfl, rfl, rfl, rfl, by simp [firpfbch_clear], ?_⟩
  intro i hi
  have hi' : i < (c.bank.map fir_filter_crcf_clear).length := by simpa using hi
  have hcl : (firpfbch_clear c).bank = c.bank.map fir_filter_crcf_clear := rfl
  rw [hcl, List.getD_eq_getElem _ _ hi', List.getD_eq_getElem _ _ hi,
    List.getElem_map]
  exact ⟨rfl, rfl⟩

/-- Witness for C7 at a concrete two-channel state. -/
theorem firpfbch_clear_spec_witness :
    (0 : ℕ) < firpfbchW.bank.length ∧
    ((firpfbch_clear firpfbchW).bank.getD 0 fir0).h =
      (firpfbchW.bank.getD 0 fir0).h ∧
    ((firpfbch_clear firpfbchW).bank.getD 0 fir0).w =
      List.replicate (firpfbchW.bank.getD 0 fir0).w.length ((0:ℚ),(0:ℚ)) :=
  ⟨by decide,
   ((firpfbch_clear_spec firpfbchW).2.2.2.2.2.2 0 (by decide)).1,
   ((firpfbch_clear_spec firpfbchW).2.2.2.2.2.2 0 (by decide)).2⟩

/-- C9: `firpfbch_execute` runs the analyzer path exactly when the stored
type flag equals the Analyzer constant and runs the synthesizer path for
every other flag value, and `firpfbch_create` stores the type flag
without validating it. -/
theorem firpfbch_execute_dispatch
    (ifft : List Cplx → List Cplx) (c : Firpfbch) (xin : List Cplx)
    (kaiser : ℕ → ℚ → ℚ → ℕ → ℚ) (rrc : ℕ → ℕ → ℚ → ℚ → ℕ → ℚ)
    (M m : ℕ) (beta : ℚ) (nyquist ty : ℤ) :
    (c.type = FIRPFBCH_ANALYZER →
      firpfbch_execute ifft c xin = firpfbch_analyzer_execute ifft c xin) ∧
    (c.type ≠ FIRPFBCH_ANALYZER →
      firpfbch_execute ifft c xin = firpfbch_synthesizer_execute ifft c xin) ∧
    (∀ c' : Firpfbch,
      firpfbch_create kaiser rrc M m beta nyquist ty = Except.ok c' →
        c'.type = ty) := by
  refine ⟨?_, ?_, ?_⟩
  · intro h
    simp [firpfbch_execute, h]
  · intro h
    simp [firpfbch_execute, h]
  · intro c' hc
    unfold firpfbch_create at hc
    cases hd : firpfbch_design_prototype kaiser rrc M m beta nyquist with
    | error e =>
      rw [hd] at hc
      exact absurd hc (by simp)
    | ok h =>
      rw [hd] at hc
      simp only [Except.ok.injEq] at hc
      rw [← hc]

/-- Witness for C9: a stored type flag of `7` (neither constant) is kept
by create and dispatches to the synthesizer path. -/
theorem firpfbch_execute_dispatch_witness :
    firpfbchW7.type ≠ FIRPFBCH_ANALYZER ∧
    firpfbch_execute ifftId firpfbchW7 xinW =
      firpfbch_synthesizer_execute ifftId firpfbchW7 xinW ∧
    firpfbchWA.type = FIRPFBCH_ANALYZER ∧
    firpfbch_execute ifftId firpfbchWA xinW =
      firpfbch_analyzer_execute ifftId firpfbchWA xinW ∧
    firpfbch_create kaiserW rrcW 2 1 0 FIRPFBCH_NYQUIST 7 =
      Except.ok firpfbchC7 ∧
    firpfbchC7.type = 7 :=
  ⟨by decide,
   (firpfbch_execute_dispatch ifftId firpfbchW7 xinW kaiserW rrcW
      2 1 0 FIRPFBCH_NYQUIST 7).2.1 (by decide),
   by decide,
   (firpfbch_execute_dispatch ifftId firpfbchWA xinW kaiserW rrcW
      2 1 0 FIRPFBCH_NYQUIST 7).1 (by decide),
   rfl,
   (firpfbch_execute_dispatch ifftId firpfbchWA xinW kaiserW rrcW
      2 1 0 FIRPFBCH_NYQUIST 7).2.2 firpfbchC7 rfl⟩

lemma firpfbch_execute_buffers (ifft : List Cplx → List Cplx)
    (c : Firpfbch) (X0 x0 : List Cplx) (xin : List Cplx) :
    firpfbch_execute ifft { c with X := X0, x := x0 } xin =
      firpfbch_execute ifft c xin := by
  unfold firpfbch_execute
  by_cases h : c.type = FIRPFBCH_ANALYZER
  · rw [if_pos h,
      if_pos (show ({ c with X := X0, x := x0 } : Firpfbch).type =
        FIRPFBCH_ANALYZER from h)]
    rfl
  · rw [if_neg h,
      if_neg (show ¬ ({ c with X := X0, x := x0 } : Firpfbch).type =
        FIRPFBCH_ANALYZER from h)]
    rfl

lemma firpfbch_eq_of_fields (c1 c2 : Firpfbch)
    (h1 : c1.num_channels = c2.num_channels) (h2 : c1.m = c2.m)
    (h3 : c1.beta = c2.beta) (h4 : c1.bank = c2.bank)
    (h5 : c1.nyquist = c2.nyquist) (h6 : c1.type = c2.type) :
    c1 = { c2 with X := c1.X, x := c1.x } := by
  cases c1
  cases c2
  simp_all

/-- C8: two channelizer states that agree on the configuration and the
filter bank (in particular, two identically configured instances in their
cleared post-reset state) produce identical output sequences on the same
sequence of input blocks, whatever their scratch-buffer contents: the
output is a function of configuration and input history alone. -/
theorem firpfbch_run_deterministic
    (ifft : List Cplx → List Cplx) (c1 c2 : Firpfbch) (xs : List (List Cplx))
    (h1 : c1.num_channels = c2.num_channels) (h2 : c1.m = c2.m)
    (h3 : c1.beta = c2.beta) (h4 : c1.bank = c2.bank)
    (h5 : c1.nyquist = c2.nyquist) (h6 : c1.type = c2.type) :
    (firpfbch_run ifft c1 xs).2 = (firpfbch_run ifft c2 xs).2 := by
  cases xs with
  | nil => rfl
  | cons a rest =>
    have hc : c1 = { c2 with X := c1.X, x := c1.x } :=
      firpfbch_eq_of_fields c1 c2 h1 h2 h3 h4 h5 h6
    have hstep : firpfbch_execute ifft c1 a = firpfbch_execute ifft c2 a := by
      rw [hc]
      exact firpfbch_execute_buffers ifft c2 c1.X c1.x a
    simp [firpfbch_run, hstep]

/-- Witness for C8: two concrete states differing only in their scratch
buffers produce the same outputs on a two-block input sequence. -/
theorem firpfbch_run_deterministic_witness :
    ({ firpfbchW with X := [], x := [((9:ℚ),(9:ℚ))] } : Firpfbch).num_channels =
      firpfbchW.num_channels ∧
    ({ firpfbchW with X := [], x := [((9:ℚ),(9:ℚ))] } : Firpfbch).bank =
      firpfbchW.bank ∧
    (firpfbch_run ifftId { firpfbchW with X := [], x := [((9:ℚ),(9:ℚ))] }
        [xinW, xinW]).2 =
      (firpfbch_run ifftId firpfbchW [xinW, xinW]).2 :=
  ⟨rfl, rfl,
   firpfbch_run_deterministic ifftId
     { firpfbchW with X := [], x := [((9:ℚ),(9:ℚ))] } firpfbchW [xinW, xinW]
     rfl rfl rfl rfl rfl rfl⟩

lemma firpfbch_create_ok (kaiser : ℕ → ℚ → ℚ → ℕ → ℚ)
    (rrc : ℕ → ℕ → ℚ → ℚ → ℕ → ℚ) (M m : ℕ) (beta : ℚ) (nyquist ty : ℤ)
    (hp : List ℚ)
    (hd : firpfbch_design_prototype kaiser rrc M m beta nyquist =
      Except.ok hp) :
    firpfbch_create kaiser rrc M m beta nyquist ty =
      Except.ok
        { num_channels := M, m := m, beta := beta,
          x := List.replicate M ((0:ℚ),(0:ℚ)),
          X := List.replicate M ((0:ℚ),(0:ℚ)),
          bank := firpfbch_bank hp M m ty,
          nyquist := nyquist, type := ty } := by
  unfold firpfbch_create
  rw [hd]

lemma firpfbch_bank_length (hp : List ℚ) (M m : ℕ) (ty : ℤ) :
    (firpfbch_bank hp M m ty).length = M := by
  unfold firpfbch_bank
  split <;> simp

lemma firpfbch_bank_getD_synth (hp : List ℚ) (M m : ℕ) {i : ℕ}
    (hi : i < M) :
    (firpfbch_bank hp M m FIRPFBCH_SYNTHESIZER).getD i fir0 =
      fir_filter_crcf_create
        ((List.range (2*m*M/M)).map (fun n => hp.getD (i + n*M) 0)) := by
  unfold firpfbch_bank
  rw [if_pos rfl]
  exact getD_range_map _ _ hi

lemma firpfbch_bank_getD_other (hp : List ℚ) (M m : ℕ) {ty : ℤ} {i : ℕ}
    (hty : ty ≠ FIRPFBCH_SYNTHESIZER) (hi : i < M) :
    (firpfbch_bank hp M m ty).getD i fir0 =
      fir_filter_crcf_create
        (0 :: (List.range (2*m*M/M)).map
          (fun n => hp.getD (i + 1 + n*M) 0)) := by
  unfold firpfbch_bank
  rw [if_neg hty]
  exact getD_range_map _ _ hi

lemma firpfbch_design_length (kaiser : ℕ → ℚ → ℚ → ℕ → ℚ)
    (rrc : ℕ → ℕ → ℚ → ℚ → ℕ → ℚ) (M m : ℕ) (beta : ℚ) (nyquist : ℤ)
    (hp : List ℚ)
    (hd : firpfbch_design_prototype kaiser rrc M m beta nyquist =
      Except.ok hp) :
    hp.length = 2*m*M + 1 := by
  unfold firpfbch_design_prototype at hd
  split at hd
  · cases hd
  · split at hd
    · cases hd
      simp
    · split at hd
      · cases hd
        simp
      · cases hd

/-- C3: for a valid configuration (`M ≥ 1`, design succeeded), the
polyphase decomposition satisfies: in Synthesizer mode branch `i` has
`L/M = 2m` taps with `branch[i][n] = taps[i + n*M]`; in Analyzer mode
branch `i` has `L/M + 1 = 2m + 1` taps with `branch[i][0] = 0` and
`branch[i][n+1] = taps[i + 1 + n*M]`; and all `M` branches of one
instance have equal length (in every mode). -/
theorem firpfbch_create_decomposition
    (kaiser : ℕ → ℚ → ℚ → ℕ → ℚ) (rrc : ℕ → ℕ → ℚ → ℚ → ℕ → ℚ)
    (M m : ℕ) (beta : ℚ) (nyquist ty : ℤ) (hp : List ℚ) (c : Firpfbch)
    (hM : 1 ≤ M)
    (hd : firpfbch_design_prototype kaiser rrc M m beta nyquist =
      Except.ok hp)
    (hc : firpfbch_create kaiser rrc M m beta nyquist ty = Except.ok c) :
    (ty = FIRPFBCH_SYNTHESIZER → ∀ i, i < M →
      (c.bank.getD i fir0).h.length = 2*m ∧
      ∀ n, n < 2*m →
        (c.bank.getD i fir0).h.getD n 0 = hp.getD (i + n*M) 0) ∧
    (ty = FIRPFBCH_ANALYZER → ∀ i, i < M →
      (c.bank.getD i fir0).h.length = 2*m + 1 ∧
      (c.bank.getD i fir0).h.getD 0 0 = 0 ∧
      ∀ n, n < 2*m →
        (c.bank.getD i fir0).h.getD (n+1) 0 = hp.getD (i + 1 + n*M) 0) ∧
    (∀ i j, i < M → j < M →
      (c.bank.getD i fir0).h.length = (c.bank.getD j fir0).h.length) := by
  have hdiv : 2*m*M/M = 2*m := Nat.mul_div_cancel _ hM
  rw [firpfbch_create_ok kaiser rrc M m beta nyquist ty hp hd] at hc
  simp only [Except.ok.injEq] at hc
  have hbank : c.bank = firpfbch_bank hp M m ty := by rw [← hc]
  refine ⟨?_, ?_, ?_⟩
  · intro hty i hi
    subst hty
    rw [hbank, firpfbch_bank_getD_synth hp M m hi, hdiv]
    constructor
    · simp [fir_filter_crcf_create]
    · intro n hn
      have hcr : (fir_filter_crcf_create
          ((List.range (2*m)).map (fun n => hp.getD (i + n*M) 0))).h =
          (List.range (2*m)).map (fun n => hp.getD (i + n*M) 0) := rfl
      rw [hcr, getD_range_map _ _ hn]
  · intro hty i hi
    subst hty
    have hne : FIRPFBCH_ANALYZER ≠ FIRPFBCH_SYNTHESIZER := by decide
    rw [hbank, firpfbch_bank_getD_other hp M m hne hi, hdiv]
    refine ⟨?_, rfl, ?_⟩
    · simp [fir_filter_crcf_create]
    · intro n hn
      have hcr : (fir_filter_crcf_create
          (0 :: (List.range (2*m)).map
            (fun n => hp.getD (i + 1 + n*M) 0))).h =
          0 :: (List.range (2*m)).map
            (fun n => hp.getD (i + 1 + n*M) 0) := rfl
      rw [hcr]
      have hstep : (0 :: (List.range (2*m)).map
          (fun n => hp.getD (i + 1 + n*M) 0)).getD (n+1) 0 =
          ((List.range (2*m)).map
            (fun n => hp.getD (i + 1 + n*M) 0)).getD n 0 := rfl
      rw [hstep, getD_range_map _ _ hn]
  · intro i j hi hj
    by_cases hty : ty = FIRPFBCH_SYNTHESIZER
    · subst hty
      rw [hbank, firpfbch_bank_getD_synth hp M m hi,
        firpfbch_bank_getD_synth hp M m hj]
      simp [fir_filter_crcf_create]
    · rw [hbank, firpfbch_bank_getD_other hp M m hty hi,
        firpfbch_bank_getD_other hp M m hty hj]
      simp [fir_filter_crcf_create]

/-- Witness for C3 at the concrete analyzer-mode instance for `M = 2`,
`m = 1`. -/
theorem firpfbch_create_decomposition_witness :
    (1:ℕ) ≤ 2 ∧
    firpfbch_design_prototype kaiserW rrcW 2 1 0 FIRPFBCH_NYQUIST =
      Except.ok protoW ∧
    firpfbch_create kaiserW rrcW 2 1 0 FIRPFBCH_NYQUIST FIRPFBCH_ANALYZER =
      Except.ok firpfbchCA ∧
    (firpfbchCA.bank.getD 0 fir0).h.length = 2*1 + 1 ∧
    (firpfbchCA.bank.getD 0 fir0).h.getD 0 0 = 0 ∧
    (firpfbchCA.bank.getD 0 fir0).h.getD (0+1) 0 = protoW.getD (0+1+0*2) 0 :=
  ⟨by decide, rfl, rfl,
   ((firpfbch_create_decomposition kaiserW rrcW 2 1 0 FIRPFBCH_NYQUIST
      FIRPFBCH_ANALYZER protoW firpfbchCA (by decide) rfl rfl).2.1
        rfl 0 (by decide)).1,
   ((firpfbch_create_decomposition kaiserW rrcW 2 1 0 FIRPFBCH_NYQUIST
      FIRPFBCH_ANALYZER protoW firpfbchCA (by decide) rfl rfl).2.1
        rfl 0 (by decide)).2.1,
   ((firpfbch_create_decomposition kaiserW rrcW 2 1 0 FIRPFBCH_NYQUIST
      FIRPFBCH_ANALYZER protoW firpfbchCA (by decide) rfl rfl).2.1
        rfl 0 (by decide)).2.2 0 (by decide)⟩

/-- C4 counterexample: at `M = 2`, `m = 1` the prototype produced at
create has 5 taps, not `2*m*M = 4` as claimed. -/
theorem firpfbch_prototype_nominal_length_counterexample :
    (firpfbch_design_prototype kaiserW rrcW 2 1 0 FIRPFBCH_NYQUIST).map
      List.length = Except.ok 5 ∧
    (5 : ℕ) ≠ 2*1*2 :=
  ⟨rfl, by decide⟩

/-- C4 (amended): for every valid configuration the prototype produced
at create has length exactly `2*m*M + 1`, the same for the Nyquist and
the RootNyquist kind; it is a pure function of the configuration and
the external design services (determinism is inherent to the functional
embedding). -/
theorem firpfbch_prototype_length
    (kaiser : ℕ → ℚ → ℚ → ℕ → ℚ) (rrc : ℕ → ℕ → ℚ → ℚ → ℕ → ℚ)
    (M m : ℕ) (beta : ℚ) (nyquist : ℤ)
    (hm : 1 ≤ m)
    (hk : nyquist = FIRPFBCH_NYQUIST ∨ nyquist = FIRPFBCH_ROOTNYQUIST) :
    (firpfbch_design_prototype kaiser rrc M m beta nyquist).map List.length =
      Except.ok (2*m*M + 1) ∧
    (firpfbch_design_prototype kaiser rrc M m beta FIRPFBCH_NYQUIST).map
        List.length =
      (firpfbch_design_prototype kaiser rrc M m beta FIRPFBCH_ROOTNYQUIST).map
        List.length := by
  have hm' : ¬ m < 1 := by omega
  constructor
  · rcases hk with hk | hk <;> subst hk <;>
      simp [firpfbch_design_prototype, hm', FIRPFBCH_NYQUIST,
        FIRPFBCH_ROOTNYQUIST, Except.map]
  · simp [firpfbch_design_prototype, hm', FIRPFBCH_NYQUIST,
      FIRPFBCH_ROOTNYQUIST, Except.map]

/-- Witness for the amended C4 at a concrete configuration. -/
theorem firpfbch_prototype_length_witness :
    (1:ℕ) ≤ 1 ∧
    (firpfbch_design_prototype kaiserW rrcW 2 1 0 FIRPFBCH_NYQUIST).map
      List.length = Except.ok (2*1*2 + 1) :=
  ⟨by decide,
   (firpfbch_prototype_length kaiserW rrcW 2 1 0 FIRPFBCH_NYQUIST
      (by decide) (Or.inl rfl)).1⟩

/-- C10: create designs a prototype of `2*m*M + 1` taps and hands the
decomposition to the bank builder; the synthesizer decomposition reads
exactly the tap indices `0 ≤ k < 2*m*M` (the final designed tap is never
placed in a branch), while the analyzer decomposition reads exactly the
indices `1 ≤ k ≤ 2*m*M` (tap 0 is never placed, its slot taken by the
inserted leading zero). -/
theorem firpfbch_tap_usage
    (kaiser : ℕ → ℚ → ℚ → ℕ → ℚ) (rrc : ℕ → ℕ → ℚ → ℚ → ℕ → ℚ)
    (M m : ℕ) (beta : ℚ) (nyquist ty : ℤ) (hp : List ℚ)
    (hM : 1 ≤ M)
    (hd : firpfbch_design_prototype kaiser rrc M m beta nyquist =
      Except.ok hp) :
    hp.length = 2*m*M + 1 ∧
    (firpfbch_create kaiser rrc M m beta nyquist ty).map Firpfbch.bank =
      Except.ok (firpfbch_bank hp M m ty) ∧
    (∀ i n, i < M → n < 2*m →
      i + n*M < 2*m*M ∧
      ((firpfbch_bank hp M m FIRPFBCH_SYNTHESIZER).getD i fir0).h.getD n 0 =
        hp.getD (i + n*M) 0) ∧
    (∀ k, k < 2*m*M → ∃ i n, i < M ∧ n < 2*m ∧ k = i + n*M) ∧
    (∀ i n, i < M → n < 2*m →
      1 ≤ i + 1 + n*M ∧ i + 1 + n*M ≤ 2*m*M ∧
      ((firpfbch_bank hp M m FIRPFBCH_ANALYZER).getD i fir0).h.getD (n+1) 0 =
        hp.getD (i + 1 + n*M) 0) ∧
    (∀ k, 1 ≤ k → k ≤ 2*m*M → ∃ i n, i < M ∧ n < 2*m ∧ k = i + 1 + n*M) := by
  have hM0 : 0 < M := hM
  have hdiv : 2*m*M/M = 2*m := Nat.mul_div_cancel _ hM
  have hbound : ∀ i n : ℕ, i < M → n < 2*m → i + n*M + 1 ≤ 2*m*M := by
    intro i n hi hn
    calc i + n*M + 1 ≤ M + n*M := by omega
    _ = (n+1)*M := by ring
    _ ≤ 2*m*M := Nat.mul_le_mul_right M (by omega)
  refine ⟨firpfbch_design_length kaiser rrc M m beta nyquist hp hd, ?_,
    ?_, ?_, ?_, ?_⟩
  · rw [firpfbch_create_ok kaiser rrc M m beta nyquist ty hp hd]
    rfl
  · intro i n hi hn
    constructor
    · have := hbound i n hi hn
      omega
    · rw [firpfbch_bank_getD_synth hp M m hi, hdiv]
      have hcr : (fir_filter_crcf_create
          ((List.range (2*m)).map (fun n => hp.getD (i + n*M) 0))).h =
          (List.range (2*m)).map (fun n => hp.getD (i + n*M) 0) := rfl
      rw [hcr, getD_range_map _ _ hn]
  · intro k hk
    refine ⟨k % M, k / M, Nat.mod_lt k hM0,
      (Nat.div_lt_iff_lt_mul hM0).mpr hk, (Nat.mod_add_div' k M).symm⟩
  · intro i n hi hn
    refine ⟨by omega, ?_, ?_⟩
    · have := hbound i n hi hn
      omega
    · have hne : FIRPFBCH_ANALYZER ≠ FIRPFBCH_SYNTHESIZER := by decide
      rw [firpfbch_bank_getD_other hp M m hne hi, hdiv]
      have hcr : (fir_filter_crcf_create
          (0 :: (List.range (2*m)).map
            (fun n => hp.getD (i + 1 + n*M) 0))).h =
          0 :: (List.range (2*m)).map
            (fun n => hp.getD (i + 1 + n*M) 0) := rfl
      rw [hcr]
      have hstep : (0 :: (List.range (2*m)).map
          (fun n => hp.getD (i + 1 + n*M) 0)).getD (n+1) 0 =
          ((List.range (2*m)).map
            (fun n => hp.getD (i + 1 + n*M) 0)).getD n 0 := rfl
      rw [hstep, getD_range_map _ _ hn]
  · intro k hk1 hk2
    have e : (k-1) % M + (k-1)/M * M = k - 1 := Nat.mod_add_div' (k-1) M
    refine ⟨(k-1) % M, (k-1)/M, Nat.mod_lt _ hM0,
      (Nat.div_lt_iff_lt_mul hM0).mpr (by omega), ?_⟩
    have hr : (k-1) % M + 1 + (k-1)/M * M =
        ((k-1) % M + (k-1)/M * M) + 1 := by
      ring
    rw [hr, e]
    omega

/-- Witness for C10 at the concrete `M = 2`, `m = 1` prototype. -/
theorem firpfbch_tap_usage_witness :
    (1:ℕ) ≤ 2 ∧
    firpfbch_design_prototype kaiserW rrcW 2 1 0 FIRPFBCH_NYQUIST =
      Except.ok protoW ∧
    protoW.length = 2*1*2 + 1 ∧
    (1 + 1*2 < 2*1*2 ∧
      ((firpfbch_bank protoW 2 1 FIRPFBCH_SYNTHESIZER).getD 1 fir0).h.getD 1 0 =
        protoW.getD (1 + 1*2) 0) ∧
    (∃ i n, i < 2 ∧ n < 2*1 ∧ 3 = i + n*2) :=
  ⟨by decide, rfl,
   (firpfbch_tap_usage kaiserW rrcW 2 1 0 FIRPFBCH_NYQUIST
      FIRPFBCH_SYNTHESIZER protoW (by decide) rfl).1,
   (firpfbch_tap_usage kaiserW rrcW 2 1 0 FIRPFBCH_NYQUIST
      FIRPFBCH_SYNTHESIZER protoW (by decide) rfl).2.2.1 1 1
        (by decide) (by decide),
   (firpfbch_tap_usage kaiserW rrcW 2 1 0 FIRPFBCH_NYQUIST
      FIRPFBCH_SYNTHESIZER protoW (by decide) rfl).2.2.2.1 3 (by decide)⟩
